import Mathlib

set_option maxHeartbeats 1000000

namespace Dicom

/-! ## Byte-level helpers

Buffers are modelled as `List Nat` of byte values; multi-byte integers are
little-endian, with explicit `% 256` where overflow matters. -/

/-- 2-byte little-endian encoding of a 16-bit value. -/
def le16 (n : Nat) : List Nat := [n % 256, n / 256 % 256]

/-- 4-byte little-endian encoding of a 32-bit value. -/
def le32 (n : Nat) : List Nat :=
  [n % 256, n / 256 % 256, n / 65536 % 256, n / 16777216 % 256]

/-- Little-endian value of a byte list. -/
def leVal (bs : List Nat) : Nat := bs.foldr (fun b acc => b + 256 * acc) 0

/-! ## Value-representation classification

Modelled from the spec: the encoder/corruption implementation is not present
under `src/` (only its tests are), so the shared long-form VR lookup is taken
from the spec's fixed, closed set. -/

/-- Modelled from the spec: the fixed set of long-form VR codes
\x7bOB, OW, OF, SQ, UT, UN\x7d shared by the Encoder and the Corruption Engine. -/
def longFormVRs : List String := ["OB", "OW", "OF", "SQ", "UT", "UN"]

/-- A VR uses the long-form (4-byte length) layout iff it is in `longFormVRs`. -/
def isLongFormVR (vr : String) : Bool := longFormVRs.contains vr

/-- The 2 ASCII bytes of a VR code. -/
def vrBytes (vr : String) : List Nat := vr.data.map Char.toNat

/-! ## Data model -/

/-- A DICOM tag: (group, element), both 16-bit. Field names follow the Go
`tag.Tag` struct used by the tests (`Tag.Group`, `Tag.Element`). -/
structure Tag where
  Group : Nat
  Element : Nat
deriving DecidableEq

/-- A DICOM element as observed by the tests: a tag, a raw VR code and the
raw value payload bytes. -/
structure Element where
  Tag : Tag
  RawValueRepresentation : String
  Value : List Nat
deriving DecidableEq

/-! ## Element encoder (modelled from the spec) -/

/-- Modelled from the spec: the encoder's error for a value payload exceeding
the maximum representable in the applicable length-field width. -/
inductive EncodingError where
  | valueTooLong (valueLen maxLen : Nat)
deriving DecidableEq

/-- Maximum value-payload length representable for a VR's layout. -/
def vrMaxLen (vr : String) : Nat :=
  if isLongFormVR vr then 4294967295 else 65535

/-- Modelled from the spec: `Encode(tag, vr, valueBytes)` serializes one element
into its on-disk layout (`[group:2][element:2][VR:2][length:2][value]` for
short-form VRs, `[group:2][element:2][VR:2][reserved:2][length:4][value]` for
long-form VRs, all integers little-endian), failing with an `EncodingError`
when the value length exceeds the field width. The implementation is absent
from `src/`; this follows spec sections 4.1 and 6. -/
def Encode (g e : Nat) (vr : String) (v : List Nat) : Except EncodingError (List Nat) :=
  if isLongFormVR vr then
    if v.length ≤ 4294967295 then
      .ok (le16 g ++ le16 e ++ vrBytes vr ++ [0, 0] ++ le32 v.length ++ v)
    else
      .error (.valueTooLong v.length 4294967295)
  else
    if v.length ≤ 65535 then
      .ok (le16 g ++ le16 e ++ vrBytes vr ++ le16 v.length ++ v)
    else
      .error (.valueTooLong v.length 65535)

/-- Modelled from the spec: the companion decoder (treated as external by the
spec), reading back (group, element, vr, declared length, value) from the
layout in spec section 6. -/
def Decode (buf : List Nat) : Option (Nat × Nat × String × Nat × List Nat) :=
  if 6 ≤ buf.length then
    let g := leVal (buf.take 2)
    let e := leVal ((buf.drop 2).take 2)
    let vr := String.mk [Char.ofNat (buf.getD 4 0), Char.ofNat (buf.getD 5 0)]
    if isLongFormVR vr then
      if 12 ≤ buf.length then
        let len := leVal ((buf.drop 8).take 4)
        some (g, e, vr, len, (buf.drop 12).take len)
      else none
    else
      if 8 ≤ buf.length then
        let len := leVal ((buf.drop 6).take 2)
        some (g, e, vr, len, (buf.drop 8).take len)
      else none
  else none

/-- Modelled from the spec: `GenerateMalformedPlaceholders()` returns exactly
two synthetic elements in fixed order — tag (0x0069,0x0010) with long-form VR
"OW" first, tag (0x0071,0x0010) with short-form VR "FL" second, each with an
empty value payload. Go name: `generateMalformedPlaceholders`. -/
def generateMalformedPlaceholders : List Element :=
  [⟨⟨0x0069, 0x0010⟩, "OW", []⟩, ⟨⟨0x0071, 0x0010⟩, "FL", []⟩]

/-! ## Corruption engine (modelled from the spec)

`patchTagValueLength` scans a raw buffer for the 4-byte little-endian
(group, element) pattern, disambiguates short/long form from the 2 VR bytes
that follow, and overwrites the declared length field in place. A matched
offset whose full VR+length header does not fit in the buffer is treated as a
non-match and scanning continues. Go mutates the buffer in place and returns
a boolean; this model returns the (found, buffer) pair. -/

/-- The 4-byte little-endian byte pattern of a (group, element) pair. -/
def tagPattern (g e : Nat) : List Nat := le16 g ++ le16 e

/-- Does the tag pattern for (g, e) occur at offset `i` of `buf`? -/
def tagMatchAt (buf : List Nat) (g e i : Nat) : Bool :=
  decide ((buf.drop i).take 4 = tagPattern g e)

/-- The VR code read from the 2 bytes at offsets `i+4`, `i+5`. -/
def vrAt (buf : List Nat) (i : Nat) : String :=
  String.mk [Char.ofNat (buf.getD (i + 4) 0), Char.ofNat (buf.getD (i + 5) 0)]

/-- A complete match at offset `i`: the tag pattern occurs there and the full
VR+length header fits inside the buffer (8 bytes from `i` for short-form VRs,
12 bytes for long-form VRs). -/
def completeMatchAt (buf : List Nat) (g e i : Nat) : Bool :=
  tagMatchAt buf g e i &&
    (if isLongFormVR (vrAt buf i) then decide (i + 12 ≤ buf.length)
     else decide (i + 8 ≤ buf.length))

/-- Overwrite the bytes of `buf` starting at offset `i` with `bs`, leaving all
other bytes unchanged. -/
def writeAt (buf : List Nat) (i : Nat) (bs : List Nat) : List Nat :=
  buf.take i ++ bs ++ buf.drop (i + bs.length)

/-- Offset of the length field of the element whose header starts at `i`. -/
def lenFieldPos (buf : List Nat) (i : Nat) : Nat :=
  if isLongFormVR (vrAt buf i) then i + 8 else i + 6

/-- The little-endian bytes written into the length field for `newLength`. -/
def lenFieldBytes (buf : List Nat) (i : Nat) (newLength : Nat) : List Nat :=
  if isLongFormVR (vrAt buf i) then le32 newLength else le16 newLength

/-- Attempt to patch at a single offset: succeeds iff the offset is a complete
match, in which case the length field is overwritten. -/
def patchOnceAt (buf : List Nat) (g e n i : Nat) : Option (List Nat) :=
  if completeMatchAt buf g e i then
    some (writeAt buf (lenFieldPos buf i) (lenFieldBytes buf i n))
  else none

/-- Scan successive offsets starting at `i`, with `fuel` offsets left to try;
the first complete match is patched. -/
def scanPatch (buf : List Nat) (g e n : Nat) : Nat → Nat → Option (List Nat)
  | _, 0 => none
  | i, fuel + 1 =>
    match patchOnceAt buf g e n i with
    | some b => some b
    | none => scanPatch buf g e n (i + 1) fuel

/-- Modelled from the spec: `PatchTagValueLength(buffer, group, element,
newLength)` — scan the buffer for the first complete occurrence of the tag and
overwrite its declared length field with `newLength`; return whether a patch
happened together with the (possibly updated) buffer. Go name:
`patchTagValueLength`. -/
def patchTagValueLength (buf : List Nat) (g e n : Nat) : Bool × List Nat :=
  match scanPatch buf g e n 0 (buf.length + 1) with
  | some b => (true, b)
  | none => (false, buf)

/-! ## Deterministic UID generation (src/unnamed/part_004, `GenerateDeterministicUID`)

`crypto/sha256` and `encoding/hex` are external standard-library collaborators;
the hash is taken as a function parameter (any byte-list-valued hash, which
subsumes the real SHA-256), and hex encoding is embedded directly. -/

/-- Lowercase hex encoding of a byte list (Go `hex.EncodeToString`). -/
def hexEncode (bs : List Nat) : List Char :=
  (bs.map (fun b => [Nat.digitChar (b / 16 % 16), Nat.digitChar (b % 16)])).flatten

/-- Value of a lowercase hex digit (as consumed by Go `big.Int.SetString` base 16). -/
def hexCharVal (c : Char) : Nat :=
  if 97 ≤ c.toNat then c.toNat - 87 else c.toNat - 48

/-- Parse a hex digit string into a number (Go `big.Int.SetString(s, 16)`). -/
def hexToNat (l : List Char) : Nat :=
  l.foldl (fun acc c => acc * 16 + hexCharVal c) 0

/-- The fixed DICOM UID root used by `GenerateDeterministicUID`. -/
def uidRoot : List Char := "1.2.826.0.1.3680043.8.498".data

/-- Go `strings.TrimSuffix(s, ".")`: drop one trailing dot if present. -/
def trimDotSuffix (l : List Char) : List Char :=
  if l.getLast? = some '.' then l.dropLast else l

/-- The successive 10-character chunks of a digit string, at most `k` of them
(Go loop `for i := 0; i < len(numericSuffix) && len(segments) < 3; i += 10`;
since every normalized segment is nonempty and hence appended, the number of
appended segments equals the number of chunks taken). -/
def chunks10 : Nat → List Char → List (List Char)
  | 0, _ => []
  | _ + 1, [] => []
  | k + 1, s => s.take 10 :: chunks10 k (s.drop 10)

/-- Per-segment normalization from `GenerateDeterministicUID`: strip leading
zeros unless the segment is exactly "0"; an all-zero segment becomes "1". -/
def normSeg (seg : List Char) : List Char :=
  if seg ≠ ['0'] ∧ seg.head? = some '0' then
    let t := seg.dropWhile (fun c => c = '0')
    if t = [] then ['1'] else t
  else seg

/-- `GenerateDeterministicUID` from src/unnamed/part_004, with the external
SHA-256 hash passed as a parameter (`sha256` maps the seed to its 32 hash
bytes). The decimal rendering of the parsed hash prefix is `Nat.toDigits 10`,
matching Go `big.Int.String`. -/
def GenerateDeterministicUID (sha256 : String → List Nat) (seed : String) : String :=
  let hashHex := hexEncode (sha256 seed)
  let hashBytes := hashHex.take 30
  let numericSuffix := Nat.toDigits 10 (hexToNat hashBytes)
  let segments := ((chunks10 3 numericSuffix).map normSeg).filter (fun s => s ≠ [])
  let suffix := List.intercalate ['.'] segments
  let uid := uidRoot ++ '.' :: suffix
  let uid2 := if uid.length > 64 then trimDotSuffix (uid.take 63) else uid
  String.mk uid2

/-! ## Dimension calculation (src/go/internal/dicom/generator.go) -/

/-- `CalculateDimensions` from src/go/internal/dicom/generator.go. All values
past the sign guards are nonnegative, so the post-guard arithmetic is carried
out in `Nat`; Go's `int(math.Sqrt(float64(p)))` equals `Nat.sqrt p` for the
magnitudes reachable here (`p < 2^31 < 2^52`). -/
def CalculateDimensions (totalBytes numImages : Int) : Except String (Nat × Nat) :=
  if totalBytes ≤ 0 then .error "total bytes must be > 0"
  else if numImages ≤ 0 then .error "number of images must be > 0"
  else
    let metadataOverhead : Int := 100 * 1024
    let availableBytes : Int := totalBytes - metadataOverhead
    if availableBytes ≤ 0 then .error "total size too small (need at least 100KB for metadata)"
    else
      let maxDICOMSize : Int := 4294967296 - 10 * 1024 * 1024
      let avail : Nat := if availableBytes > maxDICOMSize then maxDICOMSize.toNat
        else availableBytes.toNat
      let totalPixels : Nat := avail / 2
      let pixelsPerFrame : Nat := totalPixels / numImages.toNat
      let dimension : Nat := Nat.sqrt pixelsPerFrame
      let w0 : Nat := if dimension ≥ 256 then dimension / 256 * 256
        else if dimension ≥ 128 then 128
        else 128
      let width : Nat := if w0 < 128 then 128 else w0
      .ok (width, width)

/-! ## Concrete fixtures (from src/internal/dicom/corruption/malformed_test.go) -/

/-- Short-form fixture of `TestPatchTagValueLength`: tag (0x0071,0x0010),
VR "FL", declared length 8, 8 payload bytes. -/
def dataFL : List Nat :=
  [0x71, 0x00, 0x10, 0x00, 70, 76, 0x08, 0x00,
   0x00, 0x00, 0x80, 0x3F, 0x00, 0x00, 0x00, 0x40]

/-- Long-form fixture of `TestPatchTagValueLength_LongForm`: tag
(0x0069,0x0010), VR "OW", 2 reserved bytes, declared length 8, 8 payload
bytes. -/
def dataOW : List Nat :=
  [0x69, 0x00, 0x10, 0x00, 79, 87, 0x00, 0x00, 0x08, 0x00, 0x00, 0x00,
   0x01, 0x00, 0x02, 0x00, 0x03, 0x00, 0x04, 0x00]

/-- All-zero fixture of `TestPatchTagValueLength_NotFound`. -/
def dataMiss : List Nat := [0, 0, 0, 0, 0, 0, 0, 0]

/-- A buffer whose only tag occurrence is too close to the end to hold a full
VR+length header. -/
def dataTrunc : List Nat := [0x71, 0x00, 0x10, 0x00, 70]

/-- A stand-in hash function used to instantiate witness statements. -/
def sha256Zero : String → List Nat := fun _ => List.replicate 32 0

/-! ## Helper lemmas -/

theorem le16_length (n : Nat) : (le16 n).length = 2 := rfl

theorem le32_length (n : Nat) : (le32 n).length = 4 := rfl

theorem leVal_le16 (n : Nat) (h : n < 65536) : leVal (le16 n) = n := by
  have h256 : n / 256 < 256 := Nat.div_lt_of_lt_mul (by omega)
  have h1 : n % 256 + 256 * (n / 256) = n := Nat.mod_add_div n 256
  simp only [leVal, le16, List.foldr]
  rw [Nat.mod_eq_of_lt h256]
  omega

theorem leVal_le32 (n : Nat) (h : n < 4294967296) : leVal (le32 n) = n := by
  have h6 : n / 16777216 < 256 := Nat.div_lt_of_lt_mul (by omega)
  have h1 : n % 256 + 256 * (n / 256) = n := Nat.mod_add_div n 256
  have h2 : n / 256 % 256 + 256 * (n / 256 / 256) = n / 256 := Nat.mod_add_div _ 256
  have h3 : n / 65536 % 256 + 256 * (n / 65536 / 256) = n / 65536 := Nat.mod_add_div _ 256
  have h4 : n / 256 / 256 = n / 65536 := by rw [Nat.div_div_eq_div_mul]
  have h5 : n / 65536 / 256 = n / 16777216 := by rw [Nat.div_div_eq_div_mul]
  simp only [leVal, le32, List.foldr]
  rw [Nat.mod_eq_of_lt h6]
  omega

theorem writeAt_length (buf bs : List Nat) (i : Nat) (h : i + bs.length ≤ buf.length) :
    (writeAt buf i bs).length = buf.length := by
  simp only [writeAt, List.length_append, List.length_take, List.length_drop]
  omega

theorem writeAt_drop_take (buf bs : List Nat) (i : Nat) (h : i ≤ buf.length) :
    ((writeAt buf i bs).drop i).take bs.length = bs := by
  have hl : (buf.take i).length = i := by rw [List.length_take]; omega
  unfold writeAt
  rw [List.append_assoc]
  have hd := List.drop_left (buf.take i) (bs ++ buf.drop (i + bs.length))
  rw [hl] at hd
  rw [hd, List.take_left]

theorem writeAt_getD_frame (buf bs : List Nat) (i : Nat) (h : i + bs.length ≤ buf.length)
    (j : Nat) (hj : j < i ∨ i + bs.length ≤ j) :
    (writeAt buf i bs).getD j 0 = buf.getD j 0 := by
  have hl : (buf.take i).length = i := by rw [List.length_take]; omega
  unfold writeAt
  rw [List.append_assoc]
  rcases hj with hj | hj
  · rw [List.getD_append _ _ _ j (by omega)]
    rw [List.getD_eq_getElem?_getD, List.getD_eq_getElem?_getD, List.getElem?_take,
      if_pos hj]
  · rw [List.getD_append_right _ _ _ j (by omega), hl]
    rw [List.getD_append_right _ _ _ _ (by omega)]
    rw [List.getD_eq_getElem?_getD, List.getD_eq_getElem?_getD, List.getElem?_drop]
    have : i + bs.length + (j - i - bs.length) = j := by omega
    rw [this]

theorem take_append_len {α : Type} (l₁ l₂ : List α) (k : Nat) (h : l₁.length = k) :
    (l₁ ++ l₂).take k = l₁ := by
  rw [← h, List.take_left]

theorem drop_append_len {α : Type} (l₁ l₂ : List α) (k : Nat) (h : l₁.length = k) :
    (l₁ ++ l₂).drop k = l₂ := by
  rw [← h, List.drop_left]

theorem tagMatchAt_iff (buf : List Nat) (g e i : Nat) :
    tagMatchAt buf g e i = true ↔ (buf.drop i).take 4 = tagPattern g e := by
  simp [tagMatchAt]

theorem completeMatchAt_bounds (buf : List Nat) (g e i : Nat)
    (h : completeMatchAt buf g e i = true) : i + 8 ≤ buf.length := by
  unfold completeMatchAt at h
  rw [Bool.and_eq_true] at h
  obtain ⟨h1, h2⟩ := h
  rw [tagMatchAt_iff] at h1
  have h4 : ((buf.drop i).take 4).length = 4 := by rw [h1]; rfl
  simp only [List.length_take, List.length_drop] at h4
  cases hvr : isLongFormVR (vrAt buf i) <;> simp [hvr] at h2 <;> omega

theorem lenField_bounds (buf : List Nat) (g e n i : Nat)
    (h : completeMatchAt buf g e i = true) :
    lenFieldPos buf i + (lenFieldBytes buf i n).length ≤ buf.length := by
  unfold completeMatchAt at h
  rw [Bool.and_eq_true] at h
  obtain ⟨h1, h2⟩ := h
  unfold lenFieldPos lenFieldBytes
  cases hvr : isLongFormVR (vrAt buf i) <;>
    simp only [hvr, if_true, if_false, Bool.false_eq_true, le16_length, le32_length,
      decide_eq_true_eq, if_neg, ite_true, ite_false] at h2 ⊢ <;> omega

theorem patchOnceAt_eq_none (buf : List Nat) (g e n i : Nat)
    (h : completeMatchAt buf g e i = false) : patchOnceAt buf g e n i = none := by
  simp [patchOnceAt, h]

theorem patchOnceAt_eq_some (buf : List Nat) (g e n i : Nat)
    (h : completeMatchAt buf g e i = true) :
    patchOnceAt buf g e n i = some (writeAt buf (lenFieldPos buf i) (lenFieldBytes buf i n)) := by
  simp [patchOnceAt, h]

theorem scanPatch_eq_none (buf : List Nat) (g e n : Nat) (fuel k : Nat)
    (h : ∀ j, completeMatchAt buf g e j = false) :
    scanPatch buf g e n k fuel = none := by
  induction fuel generalizing k with
  | zero => rfl
  | succ fuel ih =>
    rw [scanPatch, patchOnceAt_eq_none buf g e n k (h k)]
    exact ih (k + 1)

theorem scanPatch_isSome (buf : List Nat) (g e n : Nat) (fuel k i : Nat)
    (hki : k ≤ i) (hif : i < k + fuel)
    (hc : completeMatchAt buf g e i = true) :
    (scanPatch buf g e n k fuel).isSome = true := by
  induction fuel generalizing k with
  | zero => omega
  | succ fuel ih =>
    rw [scanPatch]
    cases hp : patchOnceAt buf g e n k with
    | some b => rfl
    | none =>
      have hki2 : k + 1 ≤ i := by
        rcases Nat.eq_or_lt_of_le hki with h | h
        · exfalso
          rw [h, patchOnceAt_eq_some buf g e n i hc] at hp
          exact Option.noConfusion hp
        · omega
      exact ih (k + 1) hki2 (by omega)

theorem scanPatch_eq_some_of_first (buf : List Nat) (g e n : Nat) (fuel k i : Nat)
    (hki : k ≤ i) (hif : i < k + fuel)
    (hc : completeMatchAt buf g e i = true)
    (hfirst : ∀ j, k ≤ j → j < i → completeMatchAt buf g e j = false) :
    scanPatch buf g e n k fuel =
      some (writeAt buf (lenFieldPos buf i) (lenFieldBytes buf i n)) := by
  induction fuel generalizing k with
  | zero => omega
  | succ fuel ih =>
    rw [scanPatch]
    rcases Nat.eq_or_lt_of_le hki with h | h
    · rw [← h] at hc ⊢
      rw [patchOnceAt_eq_some buf g e n k hc]
    · rw [patchOnceAt_eq_none buf g e n k (hfirst k (Nat.le_refl k) h)]
      exact ih (k + 1) h (by omega) (fun j hj1 hj2 => hfirst j (by omega) hj2)

theorem scanPatch_some_exists (buf : List Nat) (g e n : Nat) (fuel k : Nat)
    (b : List Nat) (h : scanPatch buf g e n k fuel = some b) :
    ∃ i, k ≤ i ∧ completeMatchAt buf g e i = true ∧
      b = writeAt buf (lenFieldPos buf i) (lenFieldBytes buf i n) := by
  induction fuel generalizing k with
  | zero => exact absurd h (by simp [scanPatch])
  | succ fuel ih =>
    rw [scanPatch] at h
    cases hp : patchOnceAt buf g e n k with
    | some b2 =>
      rw [hp] at h
      have hb : b2 = b := by injection h
      cases hc : completeMatchAt buf g e k with
      | false =>
        rw [patchOnceAt_eq_none buf g e n k hc] at hp
        exact absurd hp (by simp)
      | true =>
        rw [patchOnceAt_eq_some buf g e n k hc] at hp
        have hw : writeAt buf (lenFieldPos buf k) (lenFieldBytes buf k n) = b2 := by
          injection hp
        exact ⟨k, Nat.le_refl k, hc, by rw [← hb, ← hw]⟩
    | none =>
      rw [hp] at h
      obtain ⟨i, hi1, hi2, hi3⟩ := ih (k + 1) h
      exact ⟨i, by omega, hi2, hi3⟩

/-! ## Claim theorems -/

/-- C1: whenever a buffer contains, at some offset, the 4-byte little-endian
(group, element) pattern followed by a complete VR-and-length header,
`patchTagValueLength` returns true; and at the first such offset `i` it
overwrites the length field with `newLength` little-endian — the 2 bytes at
offset `i+6` for a short-form VR, the 4 bytes at offset `i+8` (after 2
reserved bytes) for a long-form VR. -/
theorem patchTagValueLength_patches (buf : List Nat) (g e n i : Nat)
    (hc : completeMatchAt buf g e i = true) :
    (patchTagValueLength buf g e n).fst = true ∧
    ((∀ j, j < i → completeMatchAt buf g e j = false) →
      (if isLongFormVR (vrAt buf i) then
        ((patchTagValueLength buf g e n).snd.drop (i + 8)).take 4 = le32 n
       else
        ((patchTagValueLength buf g e n).snd.drop (i + 6)).take 2 = le16 n)) := by
  have hb := completeMatchAt_bounds buf g e i hc
  constructor
  · have hs := scanPatch_isSome buf g e n (buf.length + 1) 0 i (Nat.zero_le i) (by omega) hc
    unfold patchTagValueLength
    cases h : scanPatch buf g e n 0 (buf.length + 1) with
    | some b => rfl
    | none => rw [h] at hs; simp at hs
  · intro hfirst
    have hscan := scanPatch_eq_some_of_first buf g e n (buf.length + 1) 0 i
      (Nat.zero_le i) (by omega) hc (fun j _ hj => hfirst j hj)
    have hsnd : (patchTagValueLength buf g e n).snd
        = writeAt buf (lenFieldPos buf i) (lenFieldBytes buf i n) := by
      unfold patchTagValueLength
      rw [hscan]
    have hfb := lenField_bounds buf g e n i hc
    have hdt := writeAt_drop_take buf (lenFieldBytes buf i n) (lenFieldPos buf i)
      (by omega)
    cases hvr : isLongFormVR (vrAt buf i) with
    | true =>
      have hpos : lenFieldPos buf i = i + 8 := by simp [lenFieldPos, hvr]
      have hbytes : lenFieldBytes buf i n = le32 n := by simp [lenFieldBytes, hvr]
      rw [if_pos rfl, hsnd, ← le32_length n, ← hpos, ← hbytes]
      exact hdt
    | false =>
      have hpos : lenFieldPos buf i = i + 6 := by simp [lenFieldPos, hvr]
      have hbytes : lenFieldBytes buf i n = le16 n := by simp [lenFieldBytes, hvr]
      rw [if_neg (by simp), hsnd, ← le16_length n, ← hpos, ← hbytes]
      exact hdt

/-- Witness for C1: the two scenarios from the tests — short-form fixture
(0x0071,0x0010)/"FL" patched to 7 with the 2 bytes at offset 6 decoding to 7,
and long-form fixture (0x0069,0x0010)/"OW" with the 4 bytes at offset 8
decoding to 7. -/
theorem patchTagValueLength_patches_witness :
    completeMatchAt dataFL 0x71 0x10 0 = true ∧
    (patchTagValueLength dataFL 0x71 0x10 7).fst = true ∧
    ((patchTagValueLength dataFL 0x71 0x10 7).snd.drop 6).take 2 = le16 7 ∧
    leVal (((patchTagValueLength dataFL 0x71 0x10 7).snd.drop 6).take 2) = 7 ∧
    completeMatchAt dataOW 0x69 0x10 0 = true ∧
    (patchTagValueLength dataOW 0x69 0x10 7).fst = true ∧
    ((patchTagValueLength dataOW 0x69 0x10 7).snd.drop 8).take 4 = le32 7 ∧
    leVal (((patchTagValueLength dataOW 0x69 0x10 7).snd.drop 8).take 4) = 7 := by
  have hFL := patchTagValueLength_patches dataFL 0x71 0x10 7 0 (by decide)
  have hOW := patchTagValueLength_patches dataOW 0x69 0x10 7 0 (by decide)
  have hFL2 := hFL.2 (fun j hj => absurd hj (Nat.not_lt_zero j))
  have hOW2 := hOW.2 (fun j hj => absurd hj (Nat.not_lt_zero j))
  rw [show isLongFormVR (vrAt dataFL 0) = false from by decide] at hFL2
  rw [show isLongFormVR (vrAt dataOW 0) = true from by decide] at hOW2
  simp only [Bool.false_eq_true, if_false, if_true, Nat.zero_add] at hFL2 hOW2
  refine ⟨by decide, hFL.1, hFL2, ?_, by decide, hOW.1, hOW2, ?_⟩
  · rw [hFL2]; decide
  · rw [hOW2]; decide

/-- C2: whenever `patchTagValueLength` returns true, there is a complete match
offset such that only the bytes of its length field (2 bytes short-form, 4
bytes long-form) are modified: the buffer keeps its length and every byte
before or after the length field is unchanged. -/
theorem patchTagValueLength_frame (buf : List Nat) (g e n : Nat)
    (h : (patchTagValueLength buf g e n).fst = true) :
    ∃ i, completeMatchAt buf g e i = true ∧
      (patchTagValueLength buf g e n).snd.length = buf.length ∧
      (∀ j, j < lenFieldPos buf i ∨
          lenFieldPos buf i + (lenFieldBytes buf i n).length ≤ j →
        (patchTagValueLength buf g e n).snd.getD j 0 = buf.getD j 0) := by
  unfold patchTagValueLength at h ⊢
  cases hs : scanPatch buf g e n 0 (buf.length + 1) with
  | none => rw [hs] at h; simp at h
  | some b =>
    obtain ⟨i, _, hc, hb⟩ := scanPatch_some_exists buf g e n (buf.length + 1) 0 b hs
    have hfb := lenField_bounds buf g e n i hc
    refine ⟨i, hc, ?_, ?_⟩
    · rw [hb]
      exact writeAt_length _ _ _ hfb
    · intro j hj
      rw [hb]
      exact writeAt_getD_frame _ _ _ hfb j hj

/-- Witness for C2 at the short-form test fixture. -/
theorem patchTagValueLength_frame_witness :
    (patchTagValueLength dataFL 0x71 0x10 7).fst = true ∧
    (∃ i, completeMatchAt dataFL 0x71 0x10 i = true ∧
      (patchTagValueLength dataFL 0x71 0x10 7).snd.length = dataFL.length ∧
      (∀ j, j < lenFieldPos dataFL i ∨
          lenFieldPos dataFL i + (lenFieldBytes dataFL i 7).length ≤ j →
        (patchTagValueLength dataFL 0x71 0x10 7).snd.getD j 0 = dataFL.getD j 0)) :=
  ⟨by decide, patchTagValueLength_frame dataFL 0x71 0x10 7 (by decide)⟩

/-- C3: when the 4-byte little-endian (group, element) pattern occurs nowhere
in the buffer, `patchTagValueLength` returns false and the buffer is
byte-for-byte unchanged. -/
theorem patchTagValueLength_notFound (buf : List Nat) (g e n : Nat)
    (h : ∀ i, i < buf.length → tagMatchAt buf g e i = false) :
    patchTagValueLength buf g e n = (false, buf) := by
  have hall : ∀ i, completeMatchAt buf g e i = false := by
    intro i
    by_cases hi : i < buf.length
    · unfold completeMatchAt
      rw [h i hi]
      rfl
    · unfold completeMatchAt
      have ht : tagMatchAt buf g e i = false := by
        unfold tagMatchAt
        rw [List.drop_eq_nil_of_le (by omega)]
        simp [tagPattern, le16]
      rw [ht]
      rfl
  unfold patchTagValueLength
  rw [scanPatch_eq_none buf g e n (buf.length + 1) 0 hall]

/-- Witness for C3 at the all-zero fixture of
`TestPatchTagValueLength_NotFound`. -/
theorem patchTagValueLength_notFound_witness :
    patchTagValueLength dataMiss 0x70 0x253 7 = (false, dataMiss) :=
  patchTagValueLength_notFound dataMiss 0x70 0x253 7 (by decide)

/-- C7: `generateMalformedPlaceholders` returns exactly 2 elements in fixed
order — tag (0x0069,0x0010) with long-form VR "OW" first, tag (0x0071,0x0010)
with short-form VR "FL" second — each with an empty value payload.
(Purity/determinism is inherent: it is a closed Lean definition.) -/
theorem generateMalformedPlaceholders_spec :
    generateMalformedPlaceholders.length = 2 ∧
    generateMalformedPlaceholders.map
        (fun el => (el.Tag.Group, el.Tag.Element, el.RawValueRepresentation, el.Value))
      = [(0x0069, 0x0010, "OW", []), (0x0071, 0x0010, "FL", [])] ∧
    isLongFormVR "OW" = true ∧ isLongFormVR "FL" = false :=
  ⟨rfl, rfl, rfl, rfl⟩

/-- C8: `patchTagValueLength` is total on every buffer (no out-of-bounds
access is modelled: the result always has the buffer's length); it returns
false exactly when no offset holds a complete match — truncated matches are
skipped — and on the false path the buffer is unmodified. -/
theorem patchTagValueLength_safe (buf : List Nat) (g e n : Nat) :
    ((patchTagValueLength buf g e n).fst = false ↔
      ∀ i, i < buf.length → completeMatchAt buf g e i = false) ∧
    ((patchTagValueLength buf g e n).fst = false →
      (patchTagValueLength buf g e n).snd = buf) ∧
    (patchTagValueLength buf g e n).snd.length = buf.length := by
  have hext : ∀ i, completeMatchAt buf g e i = true → i < buf.length := by
    intro i hi
    have := completeMatchAt_bounds buf g e i hi
    omega
  refine ⟨⟨?_, ?_⟩, ?_, ?_⟩
  · intro hf i _
    by_contra hcm
    rw [Bool.not_eq_false] at hcm
    have hs := scanPatch_isSome buf g e n (buf.length + 1) 0 i (Nat.zero_le i)
      (by have := hext i hcm; omega) hcm
    unfold patchTagValueLength at hf
    cases hscan : scanPatch buf g e n 0 (buf.length + 1) with
    | some b => rw [hscan] at hf; simp at hf
    | none => rw [hscan] at hs; simp at hs
  · intro hall
    have hall2 : ∀ i, completeMatchAt buf g e i = false := by
      intro i
      by_cases hi : i < buf.length
      · exact hall i hi
      · by_contra hcm
        rw [Bool.not_eq_false] at hcm
        exact hi (hext i hcm)
    unfold patchTagValueLength
    rw [scanPatch_eq_none buf g e n (buf.length + 1) 0 hall2]
  · intro hf
    unfold patchTagValueLength at hf ⊢
    cases hscan : scanPatch buf g e n 0 (buf.length + 1) with
    | some b => rw [hscan] at hf; simp at hf
    | none => rfl
  · unfold patchTagValueLength
    cases hscan : scanPatch buf g e n 0 (buf.length + 1) with
    | none => rfl
    | some b =>
      obtain ⟨i, _, hc, hb⟩ := scanPatch_some_exists buf g e n (buf.length + 1) 0 b hscan
      rw [hb]
      exact writeAt_length _ _ _ (lenField_bounds buf g e n i hc)

/-- Witness for C8 at a buffer whose only tag occurrence is too close to the
end for a full header: no panic is possible in the model, the result is false
and the buffer is unchanged. -/
theorem patchTagValueLength_safe_witness :
    (patchTagValueLength dataTrunc 0x71 0x10 7).fst = false ∧
    (patchTagValueLength dataTrunc 0x71 0x10 7).snd = dataTrunc ∧
    (patchTagValueLength dataTrunc 0x71 0x10 7).snd.length = dataTrunc.length := by
  have h := patchTagValueLength_safe dataTrunc 0x71 0x10 7
  have hf : (patchTagValueLength dataTrunc 0x71 0x10 7).fst = false :=
    h.1.mpr (by decide)
  exact ⟨hf, h.2.1 hf, h.2.2⟩

/-- C4: `Encode` places a 4-byte little-endian length field at offset 8 (after
2 reserved bytes) for every long-form VR, and a 2-byte little-endian length
field at offset 6 for every other VR; offsets 0-3 hold group and element as
little-endian uint16, offsets 4-5 the 2 ASCII VR bytes, the length field
equals the value length, and the value bytes follow. The long-form set
contains at least OB, OW, OF, SQ, UT, UN. -/
theorem Encode_layout (g e : Nat) (vr : String) (v : List Nat)
    (hvr2 : vr.data.length = 2) (hlen : v.length ≤ vrMaxLen vr) :
    (isLongFormVR "OB" = true ∧ isLongFormVR "OW" = true ∧ isLongFormVR "OF" = true ∧
     isLongFormVR "SQ" = true ∧ isLongFormVR "UT" = true ∧ isLongFormVR "UN" = true) ∧
    ∃ out, Encode g e vr v = .ok out ∧
      out.take 2 = le16 g ∧
      (out.drop 2).take 2 = le16 e ∧
      (out.drop 4).take 2 = vrBytes vr ∧
      (if isLongFormVR vr then
        (out.drop 8).take 4 = le32 v.length ∧ out.drop 12 = v
       else
        (out.drop 6).take 2 = le16 v.length ∧ out.drop 8 = v) := by
  refine ⟨⟨by decide, by decide, by decide, by decide, by decide, by decide⟩, ?_⟩
  have hvb : (vrBytes vr).length = 2 := by simp [vrBytes, hvr2]
  cases hL : isLongFormVR vr with
  | true =>
    have hm : v.length ≤ 4294967295 := by
      unfold vrMaxLen at hlen
      rw [hL] at hlen
      simpa using hlen
    refine ⟨le16 g ++ le16 e ++ vrBytes vr ++ [0, 0] ++ le32 v.length ++ v,
      ?_, ?_, ?_, ?_, ?_⟩
    · unfold Encode
      rw [hL, if_pos rfl, if_pos hm]
    · simp only [List.append_assoc]
      exact take_append_len _ _ 2 (le16_length g)
    · simp only [List.append_assoc]
      rw [drop_append_len _ _ 2 (le16_length g)]
      exact take_append_len _ _ 2 (le16_length e)
    · simp only [List.append_assoc]
      rw [show (4 : Nat) = 2 + 2 from rfl, ← List.drop_drop,
        drop_append_len _ _ 2 (le16_length g), drop_append_len _ _ 2 (le16_length e)]
      exact take_append_len _ _ 2 hvb
    · rw [if_pos rfl]
      constructor
      · simp only [List.append_assoc]
        rw [show (8 : Nat) = 2 + 6 from rfl, ← List.drop_drop,
          drop_append_len _ _ 2 (le16_length g),
          show (6 : Nat) = 2 + 4 from rfl, ← List.drop_drop,
          drop_append_len _ _ 2 (le16_length e),
          show (4 : Nat) = 2 + 2 from rfl, ← List.drop_drop,
          drop_append_len _ _ 2 hvb,
          drop_append_len ([0, 0] : List Nat) _ 2 rfl]
        exact take_append_len _ _ (2 + 2) (le32_length _)
      · simp only [List.append_assoc]
        rw [show (12 : Nat) = 2 + 10 from rfl, ← List.drop_drop,
          drop_append_len _ _ 2 (le16_length g),
          show (10 : Nat) = 2 + 8 from rfl, ← List.drop_drop,
          drop_append_len _ _ 2 (le16_length e),
          show (8 : Nat) = 2 + 6 from rfl, ← List.drop_drop,
          drop_append_len _ _ 2 hvb,
          show (6 : Nat) = 2 + 4 from rfl, ← List.drop_drop,
          drop_append_len ([0, 0] : List Nat) _ 2 rfl,
          drop_append_len _ _ (2 + 2) (le32_length _)]
  | false =>
    have hm : v.length ≤ 65535 := by
      unfold vrMaxLen at hlen
      rw [hL] at hlen
      simpa using hlen
    refine ⟨le16 g ++ le16 e ++ vrBytes vr ++ le16 v.length ++ v,
      ?_, ?_, ?_, ?_, ?_⟩
    · unfold Encode
      rw [hL, if_neg (by simp), if_pos hm]
    · simp only [List.append_assoc]
      exact take_append_len _ _ 2 (le16_length g)
    · simp only [List.append_assoc]
      rw [drop_append_len _ _ 2 (le16_length g)]
      exact take_append_len _ _ 2 (le16_length e)
    · simp only [List.append_assoc]
      rw [show (4 : Nat) = 2 + 2 from rfl, ← List.drop_drop,
        drop_append_len _ _ 2 (le16_length g), drop_append_len _ _ 2 (le16_length e)]
      exact take_append_len _ _ 2 hvb
    · rw [if_neg (by simp)]
      constructor
      · simp only [List.append_assoc]
        rw [show (6 : Nat) = 2 + 4 from rfl, ← List.drop_drop,
          drop_append_len _ _ 2 (le16_length g),
          show (4 : Nat) = 2 + 2 from rfl, ← List.drop_drop,
          drop_append_len _ _ 2 (le16_length e),
          drop_append_len _ _ 2 hvb]
        exact take_append_len _ _ 2 (le16_length _)
      · simp only [List.append_assoc]
        rw [show (8 : Nat) = 2 + 6 from rfl, ← List.drop_drop,
          drop_append_len _ _ 2 (le16_length g),
          show (6 : Nat) = 2 + 4 from rfl, ← List.drop_drop,
          drop_append_len _ _ 2 (le16_length e),
          show (4 : Nat) = 2 + 2 from rfl, ← List.drop_drop,
          drop_append_len _ _ 2 hvb,
          drop_append_len _ _ 2 (le16_length _)]

/-- Witness for C4 at a long-form VR ("OW") and a short-form VR ("FL"). -/
theorem Encode_layout_witness :
    (∃ out, Encode 0x69 0x10 "OW" [1, 2] = .ok out ∧
      out.take 2 = le16 0x69 ∧
      (out.drop 2).take 2 = le16 0x10 ∧
      (out.drop 4).take 2 = vrBytes "OW" ∧
      (if isLongFormVR "OW" then
        (out.drop 8).take 4 = le32 ([1, 2] : List Nat).length ∧ out.drop 12 = [1, 2]
       else
        (out.drop 6).take 2 = le16 ([1, 2] : List Nat).length ∧ out.drop 8 = [1, 2])) ∧
    (∃ out, Encode 0x71 0x10 "FL" [1, 2, 3] = .ok out ∧
      out.take 2 = le16 0x71 ∧
      (out.drop 2).take 2 = le16 0x10 ∧
      (out.drop 4).take 2 = vrBytes "FL" ∧
      (if isLongFormVR "FL" then
        (out.drop 8).take 4 = le32 ([1, 2, 3] : List Nat).length ∧ out.drop 12 = [1, 2, 3]
       else
        (out.drop 6).take 2 = le16 ([1, 2, 3] : List Nat).length ∧ out.drop 8 = [1, 2, 3])) :=
  ⟨(Encode_layout 0x69 0x10 "OW" [1, 2] (by decide) (by decide)).2,
   (Encode_layout 0x71 0x10 "FL" [1, 2, 3] (by decide) (by decide)).2⟩

/-- C5: decoding the encoder's output with the companion decoder reproduces
(group, element, vr, declared length, value) exactly, with the declared length
equal to the value's length, for every short-form VR and value of length at
most 65535. -/
theorem Decode_Encode_roundtrip (g e : Nat) (vr : String) (v : List Nat)
    (hg : g < 65536) (he : e < 65536) (hvr2 : vr.data.length = 2)
    (hshort : isLongFormVR vr = false) (hv : v.length ≤ 65535) :
    ∃ out, Encode g e vr v = .ok out ∧ Decode out = some (g, e, vr, v.length, v) := by
  obtain ⟨c0, c1, hd⟩ : ∃ c0 c1, vr.data = [c0, c1] := by
    cases hvd : vr.data with
    | nil => rw [hvd] at hvr2; simp at hvr2
    | cons a t =>
      cases t with
      | nil => rw [hvd] at hvr2; simp at hvr2
      | cons b t2 =>
        cases t2 with
        | nil => exact ⟨a, b, rfl⟩
        | cons c t3 => rw [hvd] at hvr2; simp at hvr2
  have hvb : vrBytes vr = [c0.toNat, c1.toNat] := by simp [vrBytes, hd]
  have hvb2 : (vrBytes vr).length = 2 := by rw [hvb]; rfl
  refine ⟨le16 g ++ le16 e ++ vrBytes vr ++ le16 v.length ++ v, ?_, ?_⟩
  · unfold Encode
    rw [hshort, if_neg (by simp), if_pos hv]
  · set out := le16 g ++ le16 e ++ vrBytes vr ++ le16 v.length ++ v with hout
    have hlen_out : out.length = 8 + v.length := by
      rw [hout]
      simp only [List.length_append, le16_length, hvb2]
    have t2 : out.take 2 = le16 g := by
      rw [hout]
      simp only [List.append_assoc]
      exact take_append_len _ _ 2 (le16_length g)
    have d2e : out.drop 2 = le16 e ++ (vrBytes vr ++ (le16 v.length ++ v)) := by
      rw [hout]
      simp only [List.append_assoc]
      exact drop_append_len _ _ 2 (le16_length g)
    have d2 : (out.drop 2).take 2 = le16 e := by
      rw [d2e]
      exact take_append_len _ _ 2 (le16_length e)
    have d4e : out.drop 4 = vrBytes vr ++ (le16 v.length ++ v) := by
      rw [show (4 : Nat) = 2 + 2 from rfl, ← List.drop_drop, d2e,
        drop_append_len _ _ 2 (le16_length e)]
    have d6e : out.drop 6 = le16 v.length ++ v := by
      rw [show (6 : Nat) = 4 + 2 from rfl, ← List.drop_drop, d4e,
        drop_append_len _ _ 2 hvb2]
    have d6 : (out.drop 6).take 2 = le16 v.length := by
      rw [d6e]
      exact take_append_len _ _ 2 (le16_length _)
    have d8 : out.drop 8 = v := by
      rw [show (8 : Nat) = 6 + 2 from rfl, ← List.drop_drop, d6e,
        drop_append_len _ _ 2 (le16_length _)]
    have hb4 : out.getD 4 0 = c0.toNat := by
      have h := List.getElem?_drop out 4 0
      rw [Nat.add_zero] at h
      rw [List.getD_eq_getElem?_getD, ← h, d4e, hvb]
      rfl
    have hb5 : out.getD 5 0 = c1.toNat := by
      have h := List.getElem?_drop out 4 1
      rw [show (4 + 1 : Nat) = 5 from rfl] at h
      rw [List.getD_eq_getElem?_getD, ← h, d4e, hvb]
      rfl
    have hvr' : String.mk [Char.ofNat (out.getD 4 0), Char.ofNat (out.getD 5 0)] = vr := by
      rw [hb4, hb5, Char.ofNat_toNat, Char.ofNat_toNat, ← hd]
    have h6 : (6 : Nat) ≤ out.length := by rw [hlen_out]; omega
    have h8 : (8 : Nat) ≤ out.length := by rw [hlen_out]; omega
    unfold Decode
    rw [if_pos h6]
    simp only [hvr', hshort, Bool.false_eq_true, if_false, h8, if_true, t2, d2, d6, d8,
      leVal_le16 g hg, leVal_le16 e he, leVal_le16 v.length (by omega), List.take_length]

/-- Witness for C5 at tag (0x0071,0x0010), VR "FL", a 4-byte value. -/
theorem Decode_Encode_roundtrip_witness :
    ∃ out, Encode 0x71 0x10 "FL" [9, 8, 7, 6] = .ok out ∧
      Decode out = some (0x71, 0x10, "FL", ([9, 8, 7, 6] : List Nat).length, [9, 8, 7, 6]) :=
  Decode_Encode_roundtrip 0x71 0x10 "FL" [9, 8, 7, 6]
    (by decide) (by decide) (by decide) (by decide) (by decide)

/-- C6: `Encode` fails with an `EncodingError` exactly when the value length
exceeds the maximum representable in the applicable length-field width (65535
short-form, 2^32-1 long-form); on success the full value payload is emitted
as a suffix of the output (never truncated), and on error no byte sequence is
produced. -/
theorem Encode_error_iff (g e : Nat) (vr : String) (v : List Nat) :
    ((∃ err, Encode g e vr v = .error err) ↔ vrMaxLen vr < v.length) ∧
    (∀ out, Encode g e vr v = .ok out → v <:+ out) := by
  cases hL : isLongFormVR vr with
  | true =>
    have hm : vrMaxLen vr = 4294967295 := by
      unfold vrMaxLen
      rw [hL]
      decide
    constructor
    · constructor
      · rintro ⟨err, herr⟩
        unfold Encode at herr
        rw [hL, if_pos rfl] at herr
        by_cases hle : v.length ≤ 4294967295
        · rw [if_pos hle] at herr
          exact absurd herr (by simp)
        · rw [hm]
          omega
      · intro hgt
        rw [hm] at hgt
        refine ⟨.valueTooLong v.length 4294967295, ?_⟩
        unfold Encode
        rw [hL, if_pos rfl, if_neg (by omega)]
    · intro out hok
      unfold Encode at hok
      rw [hL, if_pos rfl] at hok
      by_cases hle : v.length ≤ 4294967295
      · rw [if_pos hle] at hok
        have h2 : le16 g ++ le16 e ++ vrBytes vr ++ [0, 0] ++ le32 v.length ++ v = out := by
          injection hok
        rw [← h2]
        exact ⟨_, rfl⟩
      · rw [if_neg hle] at hok
        exact absurd hok (by simp)
  | false =>
    have hm : vrMaxLen vr = 65535 := by
      unfold vrMaxLen
      rw [hL]
      decide
    constructor
    · constructor
      · rintro ⟨err, herr⟩
        unfold Encode at herr
        rw [hL, if_neg (by simp)] at herr
        by_cases hle : v.length ≤ 65535
        · rw [if_pos hle] at herr
          exact absurd herr (by simp)
        · rw [hm]
          omega
      · intro hgt
        rw [hm] at hgt
        refine ⟨.valueTooLong v.length 65535, ?_⟩
        unfold Encode
        rw [hL, if_neg (by simp), if_neg (by omega)]
    · intro out hok
      unfold Encode at hok
      rw [hL, if_neg (by simp)] at hok
      by_cases hle : v.length ≤ 65535
      · rw [if_pos hle] at hok
        have h2 : le16 g ++ le16 e ++ vrBytes vr ++ le16 v.length ++ v = out := by
          injection hok
        rw [← h2]
        exact ⟨_, rfl⟩
      · rw [if_neg hle] at hok
        exact absurd hok (by simp)

/-- Witness for C6: an oversized short-form value is rejected with an
`EncodingError`, and a successful encoding carries the full payload. -/
theorem Encode_error_iff_witness :
    (∃ err, Encode 1 2 "FL" (List.replicate 65536 0) = .error err) ∧
    ([1, 2, 3] : List Nat) <:+ [0x69, 0, 0x10, 0, 79, 87, 0, 0, 3, 0, 0, 0, 1, 2, 3] :=
  ⟨(Encode_error_iff 1 2 "FL" (List.replicate 65536 0)).1.mpr
      (by rw [show vrMaxLen "FL" = 65535 from by decide, List.length_replicate]; omega),
   (Encode_error_iff 0x69 0x10 "OW" [1, 2, 3]).2
      [0x69, 0, 0x10, 0, 79, 87, 0, 0, 3, 0, 0, 0, 1, 2, 3] (by rfl)⟩

/-- Assembly tail of `GenerateDeterministicUID`: for any suffix, the result
keeps the 25-character UID root as a prefix and stays within 64 characters. -/
theorem uid_assemble_take (suffix : List Char) :
    (if (uidRoot ++ '.' :: suffix).length > 64
     then trimDotSuffix ((uidRoot ++ '.' :: suffix).take 63)
     else uidRoot ++ '.' :: suffix).take 25 = uidRoot ∧
    (if (uidRoot ++ '.' :: suffix).length > 64
     then trimDotSuffix ((uidRoot ++ '.' :: suffix).take 63)
     else uidRoot ++ '.' :: suffix).length ≤ 64 := by
  have hroot : uidRoot.length = 25 := rfl
  by_cases hlen : (uidRoot ++ '.' :: suffix).length > 64
  · have ht63 : ((uidRoot ++ '.' :: suffix).take 63).length = 63 := by
      rw [List.length_take]
      omega
    constructor
    · rw [if_pos hlen]
      unfold trimDotSuffix
      by_cases hdl : ((uidRoot ++ '.' :: suffix).take 63).getLast? = some '.'
      · rw [if_pos hdl, List.dropLast_eq_take, ht63,
          List.take_take, show (25 ⊓ (63 - 1) : Nat) = 25 from by decide,
          List.take_take, show (25 ⊓ 63 : Nat) = 25 from by decide]
        exact take_append_len _ _ 25 hroot
      · rw [if_neg hdl, List.take_take, show (25 ⊓ 63 : Nat) = 25 from by decide]
        exact take_append_len _ _ 25 hroot
    · rw [if_pos hlen]
      unfold trimDotSuffix
      by_cases hdl : ((uidRoot ++ '.' :: suffix).take 63).getLast? = some '.'
      · rw [if_pos hdl, List.length_dropLast, ht63]
        omega
      · rw [if_neg hdl, ht63]
        omega
  · constructor
    · rw [if_neg hlen]
      exact take_append_len _ _ 25 hroot
    · rw [if_neg hlen]
      omega

/-- C9: `GenerateDeterministicUID` is deterministic in its seed, and for every
hash function and seed its result begins with the 25-character prefix
"1.2.826.0.1.3680043.8.498" and is at most 64 characters long. -/
theorem GenerateDeterministicUID_spec (sha256 : String → List Nat) (s t : String) :
    (s = t → GenerateDeterministicUID sha256 s = GenerateDeterministicUID sha256 t) ∧
    (GenerateDeterministicUID sha256 s).data.take 25 = uidRoot ∧
    (GenerateDeterministicUID sha256 s).length ≤ 64 := by
  refine ⟨fun h => by rw [h], ?_, ?_⟩
  · exact (uid_assemble_take _).1
  · exact (uid_assemble_take _).2

/-- Witness for C9 at a concrete (all-zero) hash and seed. -/
theorem GenerateDeterministicUID_spec_witness :
    GenerateDeterministicUID sha256Zero "seed" = GenerateDeterministicUID sha256Zero "seed" ∧
    (GenerateDeterministicUID sha256Zero "seed").data.take 25 = uidRoot ∧
    (GenerateDeterministicUID sha256Zero "seed").length ≤ 64 :=
  ⟨(GenerateDeterministicUID_spec sha256Zero "seed" "seed").1 rfl,
   (GenerateDeterministicUID_spec sha256Zero "seed" "seed").2.1,
   (GenerateDeterministicUID_spec sha256Zero "seed" "seed").2.2⟩

/-- The width computed by `CalculateDimensions` from any `dimension` value is
at least 128 and a multiple of 128. -/
theorem width_ok (d : Nat) :
    128 ≤ (if (if d ≥ 256 then d / 256 * 256 else if d ≥ 128 then 128 else 128) < 128 then 128
           else (if d ≥ 256 then d / 256 * 256 else if d ≥ 128 then 128 else 128)) ∧
    128 ∣ (if (if d ≥ 256 then d / 256 * 256 else if d ≥ 128 then 128 else 128) < 128 then 128
           else (if d ≥ 256 then d / 256 * 256 else if d ≥ 128 then 128 else 128)) := by
  by_cases hd : d ≥ 256
  · rw [if_pos hd]
    have h1 : 1 ≤ d / 256 := by
      rw [Nat.le_div_iff_mul_le (by omega)]
      omega
    have h2 : 256 ≤ d / 256 * 256 := by
      have := Nat.mul_le_mul_right 256 h1
      simpa using this
    rw [if_neg (by omega)]
    exact ⟨by omega, ⟨d / 256 * 2, by ring⟩⟩
  · rw [if_neg hd]
    by_cases hd2 : d ≥ 128
    · rw [if_pos hd2, if_neg (by omega)]
      exact ⟨Nat.le_refl 128, by norm_num⟩
    · rw [if_neg hd2, if_neg (by omega)]
      exact ⟨Nat.le_refl 128, by norm_num⟩

/-- C10: `CalculateDimensions` returns an error exactly when `numImages ≤ 0`
or `totalBytes ≤ 102400` (the fixed 100KB metadata overhead); on success the
returned width and height are equal, at least 128, and a multiple of 128. -/
theorem CalculateDimensions_spec (t n : Int) :
    ((∃ msg, CalculateDimensions t n = .error msg) ↔ (n ≤ 0 ∨ t ≤ 102400)) ∧
    (∀ w h, CalculateDimensions t n = .ok (w, h) → w = h ∧ 128 ≤ w ∧ (128 ∣ w)) := by
  unfold CalculateDimensions
  by_cases h1 : t ≤ 0
  · rw [if_pos h1]
    refine ⟨⟨fun _ => Or.inr (by omega), fun _ => ⟨_, rfl⟩⟩, ?_⟩
    intro w h hok
    exact absurd hok (by simp)
  · rw [if_neg h1]
    by_cases h2 : n ≤ 0
    · rw [if_pos h2]
      refine ⟨⟨fun _ => Or.inl h2, fun _ => ⟨_, rfl⟩⟩, ?_⟩
      intro w h hok
      exact absurd hok (by simp)
    · rw [if_neg h2]
      dsimp only
      by_cases h3 : t - 100 * 1024 ≤ 0
      · rw [if_pos h3]
        refine ⟨⟨fun _ => Or.inr (by omega), fun _ => ⟨_, rfl⟩⟩, ?_⟩
        intro w h hok
        exact absurd hok (by simp)
      · rw [if_neg h3]
        constructor
        · constructor
          · rintro ⟨msg, hmsg⟩
            exact absurd hmsg (by simp)
          · rintro (hc | hc)
            · exact absurd hc h2
            · exact absurd hc (by omega)
        · intro w h hok
          rw [Except.ok.injEq, Prod.mk.injEq] at hok
          refine ⟨by rw [← hok.1, ← hok.2], ?_, ?_⟩
          · rw [← hok.1]
            exact (width_ok _).1
          · rw [← hok.1]
            exact (width_ok _).2

/-- Witness for C10: a 102401-byte request for 1 image succeeds with square,
128-divisible minimum dimensions, and a too-small request errors. -/
theorem CalculateDimensions_spec_witness :
    ((128 : Nat) = 128 ∧ 128 ≤ (128 : Nat) ∧ (128 ∣ (128 : Nat))) ∧
    (∃ msg, CalculateDimensions 50 1 = .error msg) :=
  ⟨(CalculateDimensions_spec 102401 1).2 128 128 (by rfl),
   (CalculateDimensions_spec 50 1).1.mpr (Or.inr (by omega))⟩

end Dicom
